import Mathlib

/-!
Verification development for the KU event-hub backend: the event
participation and QR-code attendance subsystem.

Embedding conventions:
* Byte strings (Node `Buffer`s / base64- or hex-transported strings) are
  modelled as `List Nat`; the base64/hex/utf8 transport encodings used by
  the handlers are lossless bijections on the values that occur and are
  elided, so equality of byte lists coincides with equality of the
  transported strings.
* The AES-256 core used through Node `createCipheriv("aes-256-cbc", ...)`
  is an external library, not code of this repository; it is modelled as a
  pair of keyed block maps `E`/`D` assumed mutually inverse on 16-byte
  blocks.  The repository-owned parts of `encryptSymmetric` /
  `decryptSymmetric` — CBC chaining, PKCS#7 padding, key/iv handling —
  are embedded concretely below.
* Mongoose documents become plain structures, `Date.now()` an explicit
  `now` argument, and each Express handler a pure function from the
  database state to a response value paired with the new state.
-/

namespace KU

abbrev Bytes := List Nat

/-- Pointwise XOR of two byte strings (CBC chaining step). -/
def xorBytes (a b : Bytes) : Bytes := List.zipWith Nat.xor a b

/-- Fuel-indexed block splitter (structural recursion on the fuel, which
`chunks16` instantiates with the list length so that it never runs out). -/
def chunks16Go : Nat → Bytes → List Bytes
  | _, [] => []
  | 0, _ :: _ => []
  | fuel + 1, a :: t => ((a :: t).take 16) :: chunks16Go fuel (t.drop 15)

/-- Splits a byte string into consecutive 16-byte blocks (the AES block
size); the final chunk is shorter when the length is not a multiple of 16. -/
def chunks16 (l : Bytes) : List Bytes := chunks16Go l.length l

/-- PKCS#7 pad length for a message of length `n`: between 1 and 16. -/
def padLen (n : Nat) : Nat := 16 - n % 16

/-- PKCS#7 padding, as applied by OpenSSL for aes-256-cbc. -/
def pkcs7pad (l : Bytes) : Bytes :=
  l ++ List.replicate (padLen l.length) (padLen l.length)

/-- PKCS#7 unpadding; `none` models the `bad decrypt` exception OpenSSL
throws when the final block does not end in valid padding. -/
def pkcs7unpad (l : Bytes) : Option Bytes :=
  match l.getLast? with
  | none => none
  | some p =>
    if 1 ≤ p ∧ p ≤ 16 ∧ p ≤ l.length ∧ (l.drop (l.length - p)).all (fun x => x == p)
    then some (l.take (l.length - p))
    else none

/-- CBC encryption of a list of blocks with block cipher `E`, key `key`
and previous ciphertext block (initially the IV) `prev`. -/
def cbcEncryptBlocks (E : Bytes → Bytes → Bytes) (key : Bytes) (prev : Bytes) :
    List Bytes → List Bytes
  | [] => []
  | b :: bs =>
    E key (xorBytes b prev) :: cbcEncryptBlocks E key (E key (xorBytes b prev)) bs

/-- CBC decryption of a list of ciphertext blocks with block cipher
inverse `D`. -/
def cbcDecryptBlocks (D : Bytes → Bytes → Bytes) (key : Bytes) (prev : Bytes) :
    List Bytes → List Bytes
  | [] => []
  | c :: cs => xorBytes (D key c) prev :: cbcDecryptBlocks D key c cs

/-- Value of one hex digit, `none` on a non-hex character. -/
def hexDigit? (c : Char) : Option Nat :=
  if 48 ≤ c.toNat ∧ c.toNat ≤ 57 then some (c.toNat - 48)
  else if 97 ≤ c.toNat ∧ c.toNat ≤ 102 then some (c.toNat - 87)
  else if 65 ≤ c.toNat ∧ c.toNat ≤ 70 then some (c.toNat - 55)
  else none

/-- Decodes a hex string (as `Buffer.from(key, "hex")` does for a fully
valid even-length hex string) into bytes. -/
def hexDecode : List Char → Option Bytes
  | [] => some []
  | [_] => none
  | c1 :: c2 :: r =>
    match hexDigit? c1, hexDigit? c2, hexDecode r with
    | some h, some lo, some t => some ((16 * h + lo) :: t)
    | _, _, _ => none

/-- `encryptSymmetric(text, key)` from `src/services/crypto.ts`: AES-256-CBC
with PKCS#7 padding.  The fresh random 16-byte IV produced by
`randomBytes(16)` is passed in as the argument `iv`; the AES core is the
parameter `E`.  Returns the `{ciphertext, iv}` pair. -/
def encryptSymmetric (E : Bytes → Bytes → Bytes) (iv : Bytes) (text key : Bytes) :
    Bytes × Bytes :=
  ((cbcEncryptBlocks E key iv (chunks16 (pkcs7pad text))).flatten, iv)

/-- `decryptSymmetric(key, ciphertext, iv)` from `src/services/crypto.ts`,
with AES core `D`.  `none` models the exception thrown by
`decipher.final` on a ciphertext whose length is not a positive multiple
of the block size (`wrong final block length`) or whose last decrypted
block carries invalid padding (`bad decrypt`). -/
def decryptSymmetric (D : Bytes → Bytes → Bytes) (key ct iv : Bytes) : Option Bytes :=
  if ct.length % 16 = 0 ∧ ct ≠ [] then
    pkcs7unpad (cbcDecryptBlocks D key iv (chunks16 ct)).flatten
  else none

/-! ## Data model (`src/schema/Event.ts`, `src/schema/Participation.ts`,
user's `joinedEvents` from `src/schema/User.ts`) -/

/-- A `Participation` document: join record linking one user to one event. -/
structure Participation where
  pid : Nat
  user : Nat
  event : Nat
  isActive : Bool
  isConfirmed : Bool
  updatedAt : Nat
deriving DecidableEq

/-- An `Event` document (the fields the participation/QR subsystem reads
and writes). -/
structure Event where
  eid : Nat
  totalSeats : Nat
  startTime : Nat
  endTime : Nat
  isActive : Bool
  isDeactivated : Bool
  qrCodeString : Option Bytes
  qrCodeIv : Option Bytes
  participants : List Nat
  updatedAt : Nat
deriving DecidableEq

/-- A `User` document restricted to what the handlers read: its id and its
`joinedEvents` list of participation ids. -/
structure User where
  uid : Nat
  joinedEvents : List Nat
deriving DecidableEq

/-- The document store: the three collections plus a fresh-id counter for
new participations. -/
structure DB where
  events : List Event
  users : List User
  participations : List Participation
  nextPid : Nat
deriving DecidableEq

/-- `findEventWithId` (`Event.findById`). -/
def findEventWithId (db : DB) (eid : Nat) : Option Event :=
  db.events.find? (fun e => e.eid == eid)

/-- User lookup; the auth0-token-to-user resolution is out of scope, so
users are addressed by their id directly. -/
def findUserWithId (db : DB) (uid : Nat) : Option User :=
  db.users.find? (fun u => u.uid == uid)

def lookupParticipation (db : DB) (pid : Nat) : Option Participation :=
  db.participations.find? (fun p => p.pid == pid)

/-- `await user.populate("joinedEvents")`: resolve the user's participation
ids to documents. -/
def populatedJoinedEvents (db : DB) (u : User) : List Participation :=
  u.joinedEvents.filterMap (lookupParticipation db)

/-- The filter used by join/leave/verify: participations of this user whose
`event` equals the target event and which are `isActive`. -/
def joinedParticipationsFor (db : DB) (u : User) (eid : Nat) : List Participation :=
  (populatedJoinedEvents db u).filter (fun p => p.event == eid && p.isActive)

/-- `participation.updateOne(...)` applied to every listed id. -/
def updateParticipations (db : DB) (pids : List Nat) (f : Participation → Participation) : DB :=
  { db with participations :=
      db.participations.map (fun p => if pids.contains p.pid then f p else p) }

/-- `event.updateOne(...)`. -/
def updateEventDoc (db : DB) (eid : Nat) (f : Event → Event) : DB :=
  { db with events := db.events.map (fun e => if e.eid == eid then f e else e) }

/-- `user.updateOne(...)`. -/
def updateUserDoc (db : DB) (uid : Nat) (f : User → User) : DB :=
  { db with users := db.users.map (fun u => if u.uid == uid then f u else u) }

/-- Number of participations of the event with `isActive = true`,
independent of user (the spec's active-participant count). -/
def activeParticipationCount (db : DB) (eid : Nat) : Nat :=
  (db.participations.filter (fun p => p.event == eid && p.isActive)).length

/-! ## QR payload codec -/

/-- Modelled from the spec: `QRCode.toDataURL(ciphertext)` — an external
library rendering the ciphertext string into a scannable raster image
(a data URL).  Modelled as an injective tagging of the ciphertext. -/
def qrRender (c : Bytes) : Bytes := 81 :: 82 :: c

/-- Modelled from the spec: scanning an image back to its encoded string
(`Jimp.read` + `jsQR` in `src/helper/qrcode.ts`), `none` when no valid
code is found or the image is unreadable. -/
def qrScan (s : Bytes) : Option Bytes :=
  match s with
  | 81 :: 82 :: c => some c
  | _ => none

/-- `checkQrcode(qrcodeString)` from `src/helper/qrcode.ts`: decodes a
stored data-URL image back to the encoded ciphertext; any failure
(including a `null` argument) yields `null`. -/
def checkQrcode : Option Bytes → Option Bytes
  | none => none
  | some s => qrScan s

/-- The handler environment: the AES-256 core (external library) and the
`QRCODE_ENCRYPTION_KEY` environment value (`none` when absent). -/
structure Env where
  cipherE : Bytes → Bytes → Bytes
  cipherD : Bytes → Bytes → Bytes
  qrcodeEncryptionKey : Option Bytes

/-! ## Route handlers (`src/routes/events.ts`) -/

inductive JoinRes where
  | userNotFound
  | eventNotFound
  | notActive
  | deactivated
  | alreadyJoined
  | eventFull
  | success (pid : Nat)
deriving DecidableEq

/-- `POST /api/events/:id/join`. -/
def joinEvent (db : DB) (uid eid : Nat) (now : Nat) : JoinRes × DB :=
  match findUserWithId db uid with
  | none => (.userNotFound, db)
  | some user =>
  match findEventWithId db eid with
  | none => (.eventNotFound, db)
  | some event =>
  if event.isActive = false then (.notActive, db)
  else if event.isDeactivated then (.deactivated, db)
  else
    let joinedParticipations := joinedParticipationsFor db user event.eid
    if joinedParticipations.length > 0 then (.alreadyJoined, db)
    else if joinedParticipations.length ≥ event.totalSeats then (.eventFull, db)
    else
      let p : Participation :=
        { pid := db.nextPid, user := user.uid, event := event.eid,
          isActive := true, isConfirmed := false, updatedAt := now }
      let db1 := { db with participations := db.participations ++ [p],
                           nextPid := db.nextPid + 1 }
      let db2 := updateEventDoc db1 event.eid
        (fun e => { e with participants := e.participants ++ [p.pid] })
      let db3 := updateUserDoc db2 user.uid
        (fun u => { u with joinedEvents := u.joinedEvents ++ [p.pid] })
      (.success p.pid, db3)

inductive LeaveRes where
  | userNotFound
  | eventNotFound
  | deactivated
  | hasntJoined
  | success
deriving DecidableEq

/-- `POST /api/events/:id/leave`. -/
def leaveEvent (db : DB) (uid eid : Nat) (now : Nat) : LeaveRes × DB :=
  match findUserWithId db uid with
  | none => (.userNotFound, db)
  | some user =>
  match findEventWithId db eid with
  | none => (.eventNotFound, db)
  | some event =>
  if event.isDeactivated then (.deactivated, db)
  else
    let joinedParticipations := joinedParticipationsFor db user event.eid
    if joinedParticipations.length ≤ 0 then (.hasntJoined, db)
    else
      (.success,
       updateParticipations db (joinedParticipations.map (fun p => p.pid))
         (fun p => { p with isActive := false, updatedAt := now }))

inductive VerifyRes where
  | userNotFound
  | eventNotFound
  | deactivated
  | hasntJoined
  | alreadyConfirmed
  | invalidCode
  | keyMissing
  | rawError
  | success
deriving DecidableEq

/-- `POST /api/events/:id/verify`.  `rawError` models the top-level
`catch` answering 400 with the caught exception (a decryption failure or
a `null` iv reaching `Buffer.from`). -/
def verifyEvent (env : Env) (db : DB) (uid eid : Nat) (body : Bytes) (now : Nat) :
    VerifyRes × DB :=
  match findUserWithId db uid with
  | none => (.userNotFound, db)
  | some user =>
  match findEventWithId db eid with
  | none => (.eventNotFound, db)
  | some event =>
  if event.isDeactivated then (.deactivated, db)
  else
    match (populatedJoinedEvents db user).find?
        (fun p => p.event == event.eid && p.isActive) with
    | none => (.hasntJoined, db)
    | some participation =>
      if participation.isConfirmed then (.alreadyConfirmed, db)
      else
        if body = [] then (.invalidCode, db)
        else
        match checkQrcode event.qrCodeString with
        | none => (.invalidCode, db)
        | some eventQrcodeString =>
          match env.qrcodeEncryptionKey with
          | none => (.keyMissing, db)
          | some key =>
            match event.qrCodeIv with
            | none => (.rawError, db)
            | some iv =>
              match decryptSymmetric env.cipherD key body iv,
                    decryptSymmetric env.cipherD key eventQrcodeString iv with
              | some bodyText, some eventText =>
                if bodyText = eventText then
                  (.success,
                   updateParticipations db [participation.pid]
                     (fun p => { p with isConfirmed := true, updatedAt := now }))
                else (.invalidCode, db)
              | _, _ => (.rawError, db)

inductive DeactivateRes where
  | eventNotFound
  | alreadyDeactivated
  | success
deriving DecidableEq

/-- `POST /api/events/:id/deactivate`. -/
def deactivateEvent (db : DB) (eid : Nat) (now : Nat) : DeactivateRes × DB :=
  match findEventWithId db eid with
  | none => (.eventNotFound, db)
  | some event =>
  if event.isDeactivated then (.alreadyDeactivated, db)
  else
    (.success,
     updateEventDoc db event.eid
       (fun e => { e with isActive := false, isDeactivated := true, updatedAt := now }))

/-- Update applied by the sweep to a single event. -/
def sweepOne (now : Nat) (e : Event) : Event :=
  if e.isActive = true ∧ e.endTime < now then
    { e with isActive := false, updatedAt := now }
  else e

/-- `checkActiveEvents` from `src/services/events.ts` (the spec's
`sweepExpired(now)`): deactivates every active event whose `endTime` has
passed. -/
def checkActiveEvents (db : DB) (now : Nat) : DB :=
  { db with events := db.events.map (sweepOne now) }

/-- ASCII-decimal bytes of a natural number (`n.toString()`). -/
def encodeNatAscii (n : Nat) : Bytes := (Nat.toDigits 10 n).map Char.toNat

/-- The QR plaintext payload `${event._id}|${Date.now().toFixed()}`. -/
def qrPayload (eid now : Nat) : Bytes :=
  encodeNatAscii eid ++ 124 :: encodeNatAscii now

inductive QrRes where
  | eventNotFound
  | deactivated
  | keyMissing
  | success (qrCodeString : Bytes)
deriving DecidableEq

/-- `POST /api/events/:id/qrcode` (the spec's `getOrCreateQrCode`).  The
fresh IV that `encryptSymmetric` would draw from `randomBytes` is the
argument `iv`. -/
def postQrcode (env : Env) (db : DB) (eid : Nat) (iv : Bytes) (now : Nat) : QrRes × DB :=
  match findEventWithId db eid with
  | none => (.eventNotFound, db)
  | some event =>
  if event.isDeactivated then (.deactivated, db)
  else
    match event.qrCodeString with
    | some s => (.success s, db)
    | none =>
      let originalString := qrPayload event.eid now
      match env.qrcodeEncryptionKey with
      | none => (.keyMissing, db)
      | some key =>
        let cipher := encryptSymmetric env.cipherE iv originalString key
        let qrCodeString := qrRender cipher.1
        (.success qrCodeString,
         updateEventDoc db event.eid
           (fun e => { e with qrCodeString := some qrCodeString,
                              qrCodeIv := some cipher.2, updatedAt := now }))

/-- Splits a decrypted payload as `decryptedText.split("|")` does, keeping
segments `[0]` and `[1]`. -/
def splitOnPipe (m : Bytes) : Bytes × Bytes :=
  let first := m.takeWhile (fun x => x ≠ 124)
  let rest := m.drop (first.length + 1)
  (first, rest.takeWhile (fun x => x ≠ 124))

inductive CheckQrRes where
  | userNotFound
  | eventNotFound
  | qrNotFound
  | deactivated
  | keyMissing
  | rawError
  | checked (isValid : Bool) (eventId : Option Bytes) (createdAt : Option Bytes)
deriving DecidableEq

/-- `POST /api/events/check-qrcode`.  An empty scanned string yields a 200
with `isValid=false` and no decoded fields; a decryption failure escapes
to the top-level `catch` (`rawError`). -/
def checkQrCodeRoute (env : Env) (db : DB) (uid eid : Nat) (encryptedString : Bytes) :
    CheckQrRes × DB :=
  match findUserWithId db uid with
  | none => (.userNotFound, db)
  | some _user =>
  match findEventWithId db eid with
  | none => (.eventNotFound, db)
  | some event =>
  match event.qrCodeString with
  | none => (.qrNotFound, db)
  | some _ =>
  if event.isDeactivated then (.deactivated, db)
  else if encryptedString = [] then (.checked false none none, db)
  else
    match env.qrcodeEncryptionKey with
    | none => (.keyMissing, db)
    | some key =>
      match event.qrCodeIv with
      | none => (.rawError, db)
      | some iv =>
        match decryptSymmetric env.cipherD key encryptedString iv with
        | none => (.rawError, db)
        | some decryptedText =>
          let parts := splitOnPipe decryptedText
          (.checked (parts.1 == encodeNatAscii event.eid) (some parts.1) (some parts.2), db)

/-! ## Transition system -/

/-- One request handled (or one sweep run) against the store: each
constructor is one of the embedded handlers, at arbitrary arguments. -/
inductive Step : DB → DB → Prop where
  | join (uid eid now : Nat) (db : DB) : Step db (joinEvent db uid eid now).2
  | leave (uid eid now : Nat) (db : DB) : Step db (leaveEvent db uid eid now).2
  | verify (env : Env) (uid eid : Nat) (body : Bytes) (now : Nat) (db : DB) :
      Step db (verifyEvent env db uid eid body now).2
  | deactivate (eid now : Nat) (db : DB) : Step db (deactivateEvent db eid now).2
  | sweep (now : Nat) (db : DB) : Step db (checkActiveEvents db now)
  | qrcode (env : Env) (eid : Nat) (iv : Bytes) (now : Nat) (db : DB) :
      Step db (postQrcode env db eid iv now).2

/-- States reachable by some sequence of handler invocations. -/
def Reachable : DB → DB → Prop := Relation.ReflTransGen Step

/-- A deployment-initial store: no participations yet, no user has joined
anything, distinct document ids. -/
def Init (db : DB) : Prop :=
  db.participations = [] ∧
  (∀ u ∈ db.users, u.joinedEvents = []) ∧
  (db.events.map Event.eid).Nodup

/-- Well-formedness invariant maintained by the handlers: fresh-id bound,
distinct participation and event ids, every active participation is linked
from its user's `joinedEvents`, and the at-most-one-active-per-(user,event)
uniqueness property. -/
def WF (db : DB) : Prop :=
  (∀ p ∈ db.participations, p.pid < db.nextPid) ∧
  (db.participations.map Participation.pid).Nodup ∧
  (db.events.map Event.eid).Nodup ∧
  (∀ p ∈ db.participations, p.isActive = true →
    ∀ u ∈ db.users, u.uid = p.user → p.pid ∈ u.joinedEvents) ∧
  (∀ p ∈ db.participations, ∀ q ∈ db.participations,
    p.isActive = true → q.isActive = true →
    p.user = q.user → p.event = q.event → p = q)

/-! ## Generic list lemmas -/

theorem find?_map_pred {α : Type} (g : α → α) (p : α → Bool) (l : List α)
    (hp : ∀ x, p (g x) = p x) : (l.map g).find? p = (l.find? p).map g := by
  induction l with
  | nil => rfl
  | cons a t ih =>
    by_cases hpa : p a = true
    · rw [List.map_cons, List.find?_cons_of_pos _ (by rw [hp]; exact hpa),
        List.find?_cons_of_pos _ hpa, Option.map_some']
    · rw [List.map_cons, List.find?_cons_of_neg _ (by rw [hp]; exact hpa),
        List.find?_cons_of_neg _ hpa, ih]

theorem filterMap_map_opt {α β : Type} (g : β → β) (f f' : α → Option β) (l : List α)
    (hf : ∀ a, f' a = (f a).map g) : l.filterMap f' = (l.filterMap f).map g := by
  induction l with
  | nil => rfl
  | cons a t ih =>
    rw [List.filterMap_cons, List.filterMap_cons, hf]
    cases f a with
    | none => simpa using ih
    | some b => simp [ih]

theorem find?_key_eq_of_mem {α : Type} (key : α → Nat) {l : List α}
    (h : (l.map key).Nodup) {a : α} (ha : a ∈ l) :
    l.find? (fun x => key x == key a) = some a := by
  induction l with
  | nil => cases ha
  | cons b t ih =>
    rw [List.map_cons, List.nodup_cons] at h
    rcases List.mem_cons.1 ha with rfl | hat
    · refine List.find?_cons_of_pos _ ?_
      show (key a == key a) = true
      exact beq_self_eq_true _
    · have hne : ((fun x => key x == key a) b) ≠ true := by
        show ¬(key b == key a) = true
        simp only [beq_iff_eq]
        intro he
        exact h.1 (he ▸ List.mem_map_of_mem key hat)
      rw [@List.find?_cons_of_neg _ (fun x => key x == key a) b t hne]
      exact ih h.2 hat

theorem nodup_key_eq {α : Type} (key : α → Nat) {l : List α}
    (h : (l.map key).Nodup) {a b : α} (ha : a ∈ l) (hb : b ∈ l)
    (hk : key a = key b) : a = b :=
  List.inj_on_of_nodup_map h ha hb hk

theorem nodup_concat_of_lt (l : List Participation) (p : Participation) (n : Nat)
    (hn : (l.map Participation.pid).Nodup) (hb : ∀ q ∈ l, q.pid < n) (hp : p.pid = n) :
    ((l ++ [p]).map Participation.pid).Nodup := by
  rw [List.map_append, List.map_singleton]
  apply List.Nodup.append hn (List.nodup_singleton _)
  intro x hx hy
  rw [List.mem_singleton] at hy
  rcases List.mem_map.1 hx with ⟨q, hq, rfl⟩
  exact absurd (hy ▸ hp ▸ rfl : q.pid = n) (Nat.ne_of_lt (hb q hq))

/-! ## Lemmas about the cipher embedding -/

theorem padLen_pos (n : Nat) : 1 ≤ padLen n := by
  unfold padLen; omega

theorem padLen_le (n : Nat) : padLen n ≤ 16 := by
  unfold padLen; omega

theorem pkcs7pad_length (l : Bytes) : (pkcs7pad l).length = l.length + padLen l.length := by
  simp [pkcs7pad]

theorem pkcs7pad_length_mod (l : Bytes) : (pkcs7pad l).length % 16 = 0 := by
  rw [pkcs7pad_length]; unfold padLen; omega

theorem pkcs7pad_ne_nil (l : Bytes) : pkcs7pad l ≠ [] := by
  intro h
  have h2 := congrArg List.length h
  rw [pkcs7pad_length] at h2
  have h3 := padLen_pos l.length
  simp at h2
  omega

theorem chunks16Go_eq (f1 : Nat) :
    ∀ (f2 : Nat) (l : Bytes), l.length ≤ f1 → l.length ≤ f2 →
    chunks16Go f1 l = chunks16Go f2 l := by
  induction f1 with
  | zero =>
    intro f2 l h1 _
    cases l with
    | nil => cases f2 <;> rfl
    | cons a t => simp at h1
  | succ f1 ih =>
    intro f2 l h1 h2
    cases l with
    | nil => cases f2 <;> rfl
    | cons a t =>
      cases f2 with
      | zero => simp at h2
      | succ f2 =>
        show ((a :: t).take 16) :: chunks16Go f1 (t.drop 15)
            = ((a :: t).take 16) :: chunks16Go f2 (t.drop 15)
        rw [ih f2 (t.drop 15) ?_ ?_]
        · simp only [List.length_drop]
          simp only [List.length_cons] at h1
          omega
        · simp only [List.length_drop]
          simp only [List.length_cons] at h2
          omega

theorem chunks16_nil : chunks16 [] = [] := rfl

theorem chunks16_cons (a : Nat) (t : Bytes) :
    chunks16 (a :: t) = ((a :: t).take 16) :: chunks16 ((a :: t).drop 16) := by
  show ((a :: t).take 16) :: chunks16Go t.length (t.drop 15)
      = ((a :: t).take 16) :: chunks16 ((a :: t).drop 16)
  rw [List.drop_succ_cons]
  unfold chunks16
  rw [chunks16Go_eq t.length (t.drop 15).length (t.drop 15) ?_ ?_]
  · simp [List.length_drop]
  · exact Nat.le_refl _

theorem chunks16Go_flatten (fuel : Nat) :
    ∀ l : Bytes, l.length ≤ fuel → (chunks16Go fuel l).flatten = l := by
  induction fuel with
  | zero =>
    intro l hf
    cases l with
    | nil => rfl
    | cons a t => simp at hf
  | succ fuel ih =>
    intro l hf
    cases l with
    | nil => rfl
    | cons a t =>
      show (((a :: t).take 16) :: chunks16Go fuel (t.drop 15)).flatten = a :: t
      rw [List.flatten_cons, ← @List.drop_succ_cons _ a t 15, ih ((a :: t).drop 16) ?_,
        List.take_append_drop]
      simp only [List.length_drop, List.length_cons]
      simp only [List.length_cons] at hf
      omega

theorem chunks16_flatten (l : Bytes) : (chunks16 l).flatten = l :=
  chunks16Go_flatten l.length l (Nat.le_refl _)

theorem chunks16Go_block_len (fuel : Nat) :
    ∀ l : Bytes, l.length ≤ fuel → l.length % 16 = 0 →
    ∀ b ∈ chunks16Go fuel l, b.length = 16 := by
  induction fuel with
  | zero =>
    intro l hf _ b hb
    cases l with
    | nil => cases hb
    | cons a t => simp at hf
  | succ fuel ih =>
    intro l hf h b hb
    cases l with
    | nil => cases hb
    | cons a t =>
      have hge : 16 ≤ (a :: t).length := by
        by_contra hlt
        push_neg at hlt
        rw [Nat.mod_eq_of_lt hlt] at h
        simp at h
      rcases List.mem_cons.1 hb with rfl | hb2
      · rw [List.length_take]
        simp only [List.length_cons] at hge ⊢
        omega
      · refine ih (t.drop 15) ?_ ?_ b hb2
        · simp only [List.length_drop]
          simp only [List.length_cons] at hf
          omega
        · simp only [List.length_drop]
          simp only [List.length_cons] at h hge
          omega

theorem chunks16_block_len (l : Bytes) :
    l.length % 16 = 0 → ∀ b ∈ chunks16 l, b.length = 16 := fun h =>
  chunks16Go_block_len l.length l (Nat.le_refl _) h

theorem chunks16_ne_nil (l : Bytes) (h : l ≠ []) : chunks16 l ≠ [] := by
  cases l with
  | nil => exact absurd rfl h
  | cons a t =>
    rw [chunks16_cons]
    exact List.cons_ne_nil _ _

theorem chunks16_append (b r : Bytes) (hb : b.length = 16) :
    chunks16 (b ++ r) = b :: chunks16 r := by
  cases b with
  | nil => simp at hb
  | cons a t =>
    rw [List.cons_append, chunks16_cons, ← List.cons_append, ← hb,
      List.take_left, List.drop_left]

theorem chunks16_flatten_blocks (bs : List Bytes) (h : ∀ b ∈ bs, b.length = 16) :
    chunks16 bs.flatten = bs := by
  induction bs with
  | nil => rfl
  | cons b bs ih =>
    rw [List.flatten_cons, chunks16_append b _ (h b (List.mem_cons_self b bs)),
      ih (fun x hx => h x (List.mem_cons_of_mem _ hx))]

theorem flatten_blocks_mod (bs : List Bytes) (h : ∀ b ∈ bs, b.length = 16) :
    bs.flatten.length % 16 = 0 := by
  induction bs with
  | nil => rfl
  | cons b bs ih =>
    rw [List.flatten_cons, List.length_append, h b (List.mem_cons_self b bs)]
    have := ih (fun x hx => h x (List.mem_cons_of_mem _ hx))
    omega

theorem flatten_blocks_ne_nil (bs : List Bytes) (h : ∀ b ∈ bs, b.length = 16)
    (hne : bs ≠ []) : bs.flatten ≠ [] := by
  cases bs with
  | nil => exact absurd rfl hne
  | cons b bs =>
    rw [List.flatten_cons]
    intro hcon
    have := congrArg List.length hcon
    rw [List.length_append, h b (List.mem_cons_self b bs)] at this
    simp at this

theorem xorBytes_length (a b : Bytes) : (xorBytes a b).length = min a.length b.length := by
  simp [xorBytes]

theorem xorBytes_cancel (a b : Bytes) (h : a.length = b.length) :
    xorBytes (xorBytes a b) b = a := by
  induction a generalizing b with
  | nil => cases b <;> rfl
  | cons x xs ih =>
    cases b with
    | nil => simp at h
    | cons y ys =>
      simp only [List.length_cons, Nat.add_right_cancel_iff] at h
      simp only [xorBytes, List.zipWith_cons_cons]
      rw [List.cons_eq_cons]
      exact ⟨Nat.xor_cancel_right y x, ih ys h⟩

theorem cbcEncrypt_block_len (E : Bytes → Bytes → Bytes) (key : Bytes)
    (hE : ∀ b : Bytes, b.length = 16 → (E key b).length = 16) :
    ∀ (bs : List Bytes) (prev : Bytes), (∀ b ∈ bs, b.length = 16) → prev.length = 16 →
    ∀ c ∈ cbcEncryptBlocks E key prev bs, c.length = 16 := by
  intro bs
  induction bs with
  | nil => intro prev _ _ c hc; cases hc
  | cons b bs ih =>
    intro prev hlen hprev c hc
    have hb : b.length = 16 := hlen b (List.mem_cons_self b bs)
    have hxor : (xorBytes b prev).length = 16 := by
      rw [xorBytes_length, hb, hprev]; exact min_self 16
    rw [cbcEncryptBlocks] at hc
    rcases List.mem_cons.1 hc with rfl | hc2
    · exact hE _ hxor
    · exact ih _ (fun x hx => hlen x (List.mem_cons_of_mem _ hx)) (hE _ hxor) c hc2

theorem cbcEncrypt_ne_nil (E : Bytes → Bytes → Bytes) (key prev : Bytes)
    (bs : List Bytes) (h : bs ≠ []) : cbcEncryptBlocks E key prev bs ≠ [] := by
  cases bs with
  | nil => exact absurd rfl h
  | cons b bs => rw [cbcEncryptBlocks]; exact List.cons_ne_nil _ _

theorem cbc_roundtrip (E D : Bytes → Bytes → Bytes) (key : Bytes)
    (hE : ∀ b : Bytes, b.length = 16 → (E key b).length = 16)
    (hED : ∀ b : Bytes, b.length = 16 → D key (E key b) = b) :
    ∀ (bs : List Bytes) (prev : Bytes), (∀ b ∈ bs, b.length = 16) → prev.length = 16 →
    cbcDecryptBlocks D key prev (cbcEncryptBlocks E key prev bs) = bs := by
  intro bs
  induction bs with
  | nil => intro prev _ _; rfl
  | cons b bs ih =>
    intro prev hlen hprev
    have hb : b.length = 16 := hlen b (List.mem_cons_self b bs)
    have hxor : (xorBytes b prev).length = 16 := by
      rw [xorBytes_length, hb, hprev]; exact min_self 16
    rw [cbcEncryptBlocks, cbcDecryptBlocks, hED _ hxor,
      xorBytes_cancel b prev (hb.trans hprev.symm)]
    rw [List.cons_eq_cons]
    exact ⟨rfl, ih _ (fun x hx => hlen x (List.mem_cons_of_mem _ hx)) (hE _ hxor)⟩

theorem pkcs7unpad_pad (l : Bytes) : pkcs7unpad (pkcs7pad l) = some l := by
  have hp1 := padLen_pos l.length
  have hp2 := padLen_le l.length
  have hlast : (pkcs7pad l).getLast? = some (padLen l.length) := by
    rw [pkcs7pad]
    obtain ⟨q, hq⟩ : ∃ q, padLen l.length = q + 1 := ⟨padLen l.length - 1, by omega⟩
    rw [hq, List.replicate_succ', ← List.append_assoc, List.getLast?_concat, ← hq]
  have hlen : (pkcs7pad l).length = l.length + padLen l.length := pkcs7pad_length l
  have hdrop : (pkcs7pad l).drop ((pkcs7pad l).length - padLen l.length)
      = List.replicate (padLen l.length) (padLen l.length) := by
    rw [hlen, Nat.add_sub_cancel, pkcs7pad, List.drop_left]
  have htake : (pkcs7pad l).take ((pkcs7pad l).length - padLen l.length) = l := by
    rw [hlen, Nat.add_sub_cancel, pkcs7pad, List.take_left]
  simp only [pkcs7unpad, hlast]
  rw [if_pos]
  · rw [htake]
  · refine ⟨hp1, hp2, by omega, ?_⟩
    rw [hdrop]
    simp [List.all_eq_true, List.mem_replicate]

/-! ## Facts about lookups -/

theorem findEventWithId_mem {db : DB} {eid : Nat} {e : Event}
    (h : findEventWithId db eid = some e) : e ∈ db.events :=
  List.mem_of_find?_eq_some h

theorem findEventWithId_eid {db : DB} {eid : Nat} {e : Event}
    (h : findEventWithId db eid = some e) : e.eid = eid := by
  have := List.find?_some h
  simpa [beq_iff_eq] using this

theorem findUserWithId_mem {db : DB} {uid : Nat} {u : User}
    (h : findUserWithId db uid = some u) : u ∈ db.users :=
  List.mem_of_find?_eq_some h

theorem findUserWithId_uid {db : DB} {uid : Nat} {u : User}
    (h : findUserWithId db uid = some u) : u.uid = uid := by
  have := List.find?_some h
  simpa [beq_iff_eq] using this

/-- If the event ids are distinct, lookup of a member's id returns it. -/
theorem findEventWithId_of_mem {db : DB} (hnodup : (db.events.map Event.eid).Nodup)
    {e : Event} (he : e ∈ db.events) : findEventWithId db e.eid = some e :=
  find?_key_eq_of_mem Event.eid hnodup he

/-- With distinct pids, looking a member participation up by its pid
returns it. -/
theorem lookupParticipation_of_mem {db : DB}
    (hnodup : (db.participations.map Participation.pid).Nodup)
    {p : Participation} (hp : p ∈ db.participations) :
    lookupParticipation db p.pid = some p :=
  find?_key_eq_of_mem Participation.pid hnodup hp

/-- When the join/leave filter comes back empty, no active participation
for that (user, event) pair exists anywhere in the store. -/
theorem no_active_of_filter_nil {db : DB} (hwf : WF db) {u : User} {eid : Nat}
    (huMem : u ∈ db.users)
    (hnil : joinedParticipationsFor db u eid = []) :
    ∀ p ∈ db.participations, p.user = u.uid → p.event = eid → p.isActive = true → False := by
  intro p hp huser hevent hact
  obtain ⟨_, hnodup, _, hlink, _⟩ := hwf
  have hmemJ : p.pid ∈ u.joinedEvents := hlink p hp hact u huMem huser.symm
  have hpop : p ∈ populatedJoinedEvents db u :=
    List.mem_filterMap.2 ⟨p.pid, hmemJ, lookupParticipation_of_mem hnodup hp⟩
  have hmemF : p ∈ joinedParticipationsFor db u eid := by
    refine List.mem_filter.2 ⟨hpop, ?_⟩
    simp [hevent, hact]
  rw [hnil] at hmemF
  cases hmemF

/-! ## Shapes of the post-states of each handler -/

theorem joinEvent_snd (db : DB) (uid eid now : Nat) :
    (joinEvent db uid eid now).2 = db ∨
    ∃ user event,
      findUserWithId db uid = some user ∧
      findEventWithId db eid = some event ∧
      joinedParticipationsFor db user event.eid = [] ∧
      (joinEvent db uid eid now).2 =
        updateUserDoc (updateEventDoc
          { db with
            participations := db.participations ++
              [{ pid := db.nextPid, user := user.uid, event := event.eid,
                 isActive := true, isConfirmed := false, updatedAt := now }],
            nextPid := db.nextPid + 1 } event.eid
          (fun e => { e with participants := e.participants ++ [db.nextPid] }))
          user.uid (fun u => { u with joinedEvents := u.joinedEvents ++ [db.nextPid] }) := by
  simp only [joinEvent]
  cases hu : findUserWithId db uid with
  | none => left; rfl
  | some user =>
  cases he : findEventWithId db eid with
  | none => left; rfl
  | some event =>
  dsimp only
  by_cases h1 : event.isActive = false
  · rw [if_pos h1]; left; rfl
  · rw [if_neg h1]
    by_cases h2 : event.isDeactivated = true
    · rw [if_pos h2]; left; rfl
    · rw [if_neg h2]
      by_cases h3 : (joinedParticipationsFor db user event.eid).length > 0
      · rw [if_pos h3]; left; rfl
      · rw [if_neg h3]
        have hnil : joinedParticipationsFor db user event.eid = [] :=
          List.eq_nil_of_length_eq_zero (by omega)
        by_cases h4 : (joinedParticipationsFor db user event.eid).length ≥ event.totalSeats
        · rw [if_pos h4]; left; rfl
        · rw [if_neg h4]
          right
          exact ⟨user, event, rfl, rfl, hnil, rfl⟩

theorem leaveEvent_snd (db : DB) (uid eid now : Nat) :
    (leaveEvent db uid eid now).2 = db ∨
    ∃ pids, (leaveEvent db uid eid now).2 =
      updateParticipations db pids (fun p => { p with isActive := false, updatedAt := now }) := by
  simp only [leaveEvent]
  repeat' split
  all_goals first
    | (left; rfl)
    | (right; exact ⟨_, rfl⟩)

theorem verifyEvent_snd (env : Env) (db : DB) (uid eid : Nat) (body : Bytes) (now : Nat) :
    (verifyEvent env db uid eid body now).2 = db ∨
    ∃ pid, (verifyEvent env db uid eid body now).2 =
      updateParticipations db [pid]
        (fun p => { p with isConfirmed := true, updatedAt := now }) := by
  simp only [verifyEvent]
  repeat' split
  all_goals first
    | (left; rfl)
    | (right; exact ⟨_, rfl⟩)

theorem deactivateEvent_snd (db : DB) (eid now : Nat) :
    (deactivateEvent db eid now).2 = db ∨
    ∃ eid2, (deactivateEvent db eid now).2 =
      updateEventDoc db eid2
        (fun e => { e with isActive := false, isDeactivated := true, updatedAt := now }) := by
  simp only [deactivateEvent]
  repeat' split
  all_goals first
    | (left; rfl)
    | (right; exact ⟨_, rfl⟩)

theorem postQrcode_snd (env : Env) (db : DB) (eid : Nat) (iv : Bytes) (now : Nat) :
    (postQrcode env db eid iv now).2 = db ∨
    ∃ eid2 qr ivStored, (postQrcode env db eid iv now).2 =
      updateEventDoc db eid2
        (fun e => { e with qrCodeString := some qr, qrCodeIv := some ivStored,
                           updatedAt := now }) := by
  simp only [postQrcode]
  repeat' split
  all_goals first
    | (left; rfl)
    | (right; exact ⟨_, _, _, rfl⟩)

/-! ## Preservation of the well-formedness invariant -/

theorem map_key_eq {α : Type} (key : α → Nat) (g : α → α) (l : List α)
    (h : ∀ x, key (g x) = key x) : (l.map g).map key = l.map key := by
  rw [List.map_map]
  exact List.map_congr_left fun x _ => h x

theorem WF_mapParts (db : DB) (hwf : WF db) (g : Participation → Participation)
    (hpid : ∀ p, (g p).pid = p.pid) (huser : ∀ p, (g p).user = p.user)
    (hevent : ∀ p, (g p).event = p.event)
    (hact : ∀ p, (g p).isActive = true → p.isActive = true) :
    WF { db with participations := db.participations.map g } := by
  obtain ⟨hb, hn, he, hl, huniq⟩ := hwf
  refine ⟨?_, ?_, he, ?_, ?_⟩
  · intro p hp
    rcases List.mem_map.1 hp with ⟨q, hq, rfl⟩
    rw [hpid]
    exact hb q hq
  · have h2 : ((db.participations.map g).map Participation.pid).Nodup := by
      rw [map_key_eq Participation.pid g db.participations hpid]
      exact hn
    exact h2
  · intro p hp hpa u hu huid
    rcases List.mem_map.1 hp with ⟨q, hq, rfl⟩
    rw [hpid]
    exact hl q hq (hact q hpa) u hu (by rw [huid, huser])
  · intro p hp q hq hpa hqa hus hev
    rcases List.mem_map.1 hp with ⟨p0, hp0, rfl⟩
    rcases List.mem_map.1 hq with ⟨q0, hq0, rfl⟩
    have h0 : p0 = q0 := huniq p0 hp0 q0 hq0 (hact _ hpa) (hact _ hqa)
      (by rw [← huser p0, ← huser q0]; exact hus)
      (by rw [← hevent p0, ← hevent q0]; exact hev)
    rw [h0]

theorem WF_mapEvents (db : DB) (hwf : WF db) (g : Event → Event)
    (heid : ∀ e, (g e).eid = e.eid) :
    WF { db with events := db.events.map g } := by
  obtain ⟨hb, hn, he, hl, huniq⟩ := hwf
  refine ⟨hb, hn, ?_, hl, huniq⟩
  have h2 : ((db.events.map g).map Event.eid).Nodup := by
    rw [map_key_eq Event.eid g db.events heid]
    exact he
  exact h2

theorem WF_join (db : DB) (uid eid now : Nat) (hwf : WF db) :
    WF (joinEvent db uid eid now).2 := by
  rcases joinEvent_snd db uid eid now with h | ⟨user, event, hu, he, hnil, h⟩
  · rw [h]; exact hwf
  · rw [h]
    have hb := hwf.1
    have hn := hwf.2.1
    have hei := hwf.2.2.1
    have hl := hwf.2.2.2.1
    have huniq := hwf.2.2.2.2
    refine ⟨?_, ?_, ?_, ?_, ?_⟩
    · intro q hq
      rcases List.mem_append.1 hq with h1 | h1
      · have := hb q h1
        show q.pid < db.nextPid + 1
        omega
      · rw [List.mem_singleton.1 h1]
        show db.nextPid < db.nextPid + 1
        omega
    · show ((db.participations ++ [_]).map Participation.pid).Nodup
      exact nodup_concat_of_lt db.participations _ db.nextPid hn hb rfl
    · have heidg : ∀ e : Event,
          ((fun e => if e.eid == event.eid
              then { e with participants := e.participants ++ [db.nextPid] }
              else e) e).eid = e.eid := by
        intro e
        dsimp only
        by_cases hc : (e.eid == event.eid) = true
        · rw [if_pos hc]
        · rw [if_neg hc]
      have h2 : ((db.events.map (fun e => if e.eid == event.eid
          then { e with participants := e.participants ++ [db.nextPid] }
          else e)).map Event.eid).Nodup := by
        rw [map_key_eq Event.eid _ db.events heidg]
        exact hei
      exact h2
    · intro q hq hqa u hu huid
      rcases List.mem_map.1 hu with ⟨w, hw, rfl⟩
      have hwuid : ((fun u => if u.uid == user.uid
          then { u with joinedEvents := u.joinedEvents ++ [db.nextPid] }
          else u) w).uid = w.uid := by
        dsimp only
        by_cases hc : (w.uid == user.uid) = true
        · rw [if_pos hc]
        · rw [if_neg hc]
      rcases List.mem_append.1 hq with h1 | h1
      · have hqw : q.pid ∈ w.joinedEvents := by
          refine hl q h1 hqa w hw ?_
          rw [← hwuid]
          exact huid
        by_cases hc : (w.uid == user.uid) = true
        · show q.pid ∈ (if (w.uid == user.uid) = true then _ else w).joinedEvents
          rw [if_pos hc]
          exact List.mem_append_left _ hqw
        · show q.pid ∈ (if (w.uid == user.uid) = true then _ else w).joinedEvents
          rw [if_neg hc]
          exact hqw
      · rw [List.mem_singleton.1 h1] at huid ⊢
        have hc : (w.uid == user.uid) = true := by
          rw [hwuid] at huid
          simp only [beq_iff_eq]
          exact huid
        show db.nextPid ∈ (if (w.uid == user.uid) = true then _ else w).joinedEvents
        rw [if_pos hc]
        exact List.mem_append_right _ (List.mem_singleton.2 rfl)
    · intro q1 hq1 q2 hq2 ha1 ha2 hu12 he12
      rcases List.mem_append.1 hq1 with h1 | h1 <;>
        rcases List.mem_append.1 hq2 with h2 | h2
      · exact huniq q1 h1 q2 h2 ha1 ha2 hu12 he12
      · rw [List.mem_singleton.1 h2] at hu12 he12
        exact absurd ha1 (fun ha =>
          no_active_of_filter_nil hwf (findUserWithId_mem hu) hnil q1 h1 hu12 he12 ha)
      · rw [List.mem_singleton.1 h1] at hu12 he12
        exact absurd ha2 (fun ha =>
          no_active_of_filter_nil hwf (findUserWithId_mem hu) hnil q2 h2
            hu12.symm he12.symm ha)
      · rw [List.mem_singleton.1 h1, List.mem_singleton.1 h2]

theorem WF_leave (db : DB) (uid eid now : Nat) (hwf : WF db) :
    WF (leaveEvent db uid eid now).2 := by
  rcases leaveEvent_snd db uid eid now with h | ⟨pids, h⟩
  · rw [h]; exact hwf
  · rw [h]
    refine WF_mapParts db hwf _ ?_ ?_ ?_ ?_ <;> intro p <;> dsimp only
    · by_cases hc : pids.contains p.pid = true
      · rw [if_pos hc]
      · rw [if_neg hc]
    · by_cases hc : pids.contains p.pid = true
      · rw [if_pos hc]
      · rw [if_neg hc]
    · by_cases hc : pids.contains p.pid = true
      · rw [if_pos hc]
      · rw [if_neg hc]
    · intro hpa
      by_cases hc : pids.contains p.pid = true
      · rw [if_pos hc] at hpa
        simp at hpa
      · rwa [if_neg hc] at hpa

theorem WF_verify (env : Env) (db : DB) (uid eid : Nat) (body : Bytes) (now : Nat)
    (hwf : WF db) : WF (verifyEvent env db uid eid body now).2 := by
  rcases verifyEvent_snd env db uid eid body now with h | ⟨pid, h⟩
  · rw [h]; exact hwf
  · rw [h]
    refine WF_mapParts db hwf _ ?_ ?_ ?_ ?_ <;> intro p <;> dsimp only
    · by_cases hc : [pid].contains p.pid = true
      · rw [if_pos hc]
      · rw [if_neg hc]
    · by_cases hc : [pid].contains p.pid = true
      · rw [if_pos hc]
      · rw [if_neg hc]
    · by_cases hc : [pid].contains p.pid = true
      · rw [if_pos hc]
      · rw [if_neg hc]
    · intro hpa
      by_cases hc : [pid].contains p.pid = true
      · rwa [if_pos hc] at hpa
      · rwa [if_neg hc] at hpa

theorem WF_deactivate (db : DB) (eid now : Nat) (hwf : WF db) :
    WF (deactivateEvent db eid now).2 := by
  rcases deactivateEvent_snd db eid now with h | ⟨eid2, h⟩
  · rw [h]; exact hwf
  · rw [h]
    refine WF_mapEvents db hwf _ ?_
    intro e
    dsimp only
    by_cases hc : (e.eid == eid2) = true
    · rw [if_pos hc]
    · rw [if_neg hc]

theorem WF_sweep (db : DB) (now : Nat) (hwf : WF db) :
    WF (checkActiveEvents db now) := by
  refine WF_mapEvents db hwf _ ?_
  intro e
  unfold sweepOne
  by_cases hc : e.isActive = true ∧ e.endTime < now
  · rw [if_pos hc]
  · rw [if_neg hc]

theorem WF_qrcode (env : Env) (db : DB) (eid : Nat) (iv : Bytes) (now : Nat)
    (hwf : WF db) : WF (postQrcode env db eid iv now).2 := by
  rcases postQrcode_snd env db eid iv now with h | ⟨eid2, qr, ivS, h⟩
  · rw [h]; exact hwf
  · rw [h]
    refine WF_mapEvents db hwf _ ?_
    intro e
    dsimp only
    by_cases hc : (e.eid == eid2) = true
    · rw [if_pos hc]
    · rw [if_neg hc]

theorem WF_step {db db' : DB} (h : Step db db') (hwf : WF db) : WF db' := by
  cases h with
  | join uid eid now db => exact WF_join db uid eid now hwf
  | leave uid eid now db => exact WF_leave db uid eid now hwf
  | verify env uid eid body now db => exact WF_verify env db uid eid body now hwf
  | deactivate eid now db => exact WF_deactivate db eid now hwf
  | sweep now db => exact WF_sweep db now hwf
  | qrcode env eid iv now db => exact WF_qrcode env db eid iv now hwf

theorem WF_reachable {db db' : DB} (h : Reachable db db') (hwf : WF db) : WF db' := by
  induction h with
  | refl => exact hwf
  | tail _ hbc ih => exact WF_step hbc ih

theorem Init_WF {db : DB} (h : Init db) : WF db := by
  obtain ⟨hp, _hu, he⟩ := h
  refine ⟨?_, ?_, he, ?_, ?_⟩
  · intro p hp2; rw [hp] at hp2; cases hp2
  · rw [hp]; exact List.nodup_nil
  · intro p hp2; rw [hp] at hp2; cases hp2
  · intro p hp2; rw [hp] at hp2; cases hp2

/-! ## Concrete fixtures used by witnesses and counterexamples -/

/-- A concrete instantiation of the external AES core: an involutive,
length-preserving block map (list reversal), used only to discharge the
block-cipher hypotheses in witnesses. -/
def revCipher : Bytes → Bytes → Bytes := fun _ b => b.reverse

def envC : Env :=
  { cipherE := revCipher, cipherD := revCipher,
    qrcodeEncryptionKey := some (List.replicate 32 0) }

def ev5C1 : Event :=
  { eid := 5, totalSeats := 1, startTime := 0, endTime := 100,
    isActive := true, isDeactivated := false, qrCodeString := none,
    qrCodeIv := none, participants := [0], updatedAt := 0 }

/-- Store for the capacity scenario: event 5 has `totalSeats = 1` and one
active participation (user 0); user 1 has not joined. -/
def dbC1 : DB :=
  { events := [ev5C1],
    users := [{ uid := 0, joinedEvents := [0] }, { uid := 1, joinedEvents := [] }],
    participations := [{ pid := 0, user := 0, event := 5, isActive := true,
                         isConfirmed := false, updatedAt := 0 }],
    nextPid := 1 }

/-! ## C1 -/

/-- C1: the claim says a join on an event whose `totalSeats` are all taken
by active participations is rejected "full" and the active count never
exceeds `totalSeats`.  The code compares the *requesting user's own*
active-participation count (necessarily 0 at that point) against
`totalSeats`, so the second user's join on the full 1-seat event succeeds
and the active participation count reaches 2 > totalSeats = 1. -/
theorem c1_capacity_not_enforced :
    ev5C1.totalSeats = 1 ∧
    activeParticipationCount dbC1 5 = 1 ∧
    (joinEvent dbC1 1 5 0).1 = JoinRes.success 1 ∧
    activeParticipationCount (joinEvent dbC1 1 5 0).2 5 = 2 := by
  decide

/-! ## C2 -/

/-- C2: in every store reachable from an initial store by any sequence of
handler invocations (join, leave, verify — and also deactivate, sweep and
QR issuance), each (user, event) pair has at most one participation with
`isActive = true`. -/
theorem c2_at_most_one_active_participation (db0 db : DB)
    (h0 : Init db0) (hr : Reachable db0 db) :
    ∀ p ∈ db.participations, ∀ q ∈ db.participations,
      p.isActive = true → q.isActive = true →
      p.user = q.user → p.event = q.event → p = q :=
  (WF_reachable hr (Init_WF h0)).2.2.2.2

def db0C2 : DB :=
  { events := [ev5C1],
    users := [{ uid := 0, joinedEvents := [] }, { uid := 1, joinedEvents := [] }],
    participations := [], nextPid := 0 }

theorem c2_at_most_one_active_participation_witness :
    Init db0C2 ∧
    (∀ p ∈ (joinEvent db0C2 0 5 10).2.participations,
      ∀ q ∈ (joinEvent db0C2 0 5 10).2.participations,
      p.isActive = true → q.isActive = true →
      p.user = q.user → p.event = q.event → p = q) :=
  ⟨by unfold Init; decide,
   c2_at_most_one_active_participation db0C2 (joinEvent db0C2 0 5 10).2
     (by unfold Init; decide)
     (Relation.ReflTransGen.single (Step.join 0 5 10 db0C2))⟩

/-! ## C4 -/

/-- Success case of `deactivateEvent`: the event existed, was not yet
deactivated, and the post-state clears `isActive` and sets
`isDeactivated`. -/
theorem deactivateEvent_success (db : DB) (eid now : Nat)
    (hs : (deactivateEvent db eid now).1 = DeactivateRes.success) :
    ∃ event, findEventWithId db eid = some event ∧ event.isDeactivated = false ∧
      (deactivateEvent db eid now).2 =
        updateEventDoc db event.eid
          (fun e => { e with isActive := false, isDeactivated := true, updatedAt := now }) := by
  unfold deactivateEvent at hs ⊢
  cases he : findEventWithId db eid with
  | none => rw [he] at hs; simp at hs
  | some event =>
  rw [he] at hs
  dsimp only at hs ⊢
  by_cases hd : event.isDeactivated = true
  · rw [if_pos hd] at hs; simp at hs
  · rw [if_neg hd] at hs ⊢
    exact ⟨event, rfl, by simpa using hd, rfl⟩

def dbPreC4 : DB :=
  { events := [{ eid := 7, totalSeats := 4, startTime := 0, endTime := 100,
                 isActive := true, isDeactivated := false, qrCodeString := none,
                 qrCodeIv := none, participants := [], updatedAt := 0 }],
    users := [{ uid := 1, joinedEvents := [] }],
    participations := [], nextPid := 0 }

/-- C4 counterexample: deactivating event 7 and then joining it yields the
"not active" rejection, not the "deactivated" one, because join tests
`isActive` before `isDeactivated` (the spec's order is different). -/
theorem c4_counterexample :
    (deactivateEvent dbPreC4 7 3).1 = DeactivateRes.success ∧
    (joinEvent (deactivateEvent dbPreC4 7 3).2 1 7 4).1 = JoinRes.notActive ∧
    JoinRes.notActive ≠ JoinRes.deactivated := by
  decide

/-- C4 (amended): join's checks run in the order: user exists, event
exists, `isActive`, `isDeactivated`, already-joined, full.  Because
`deactivateEvent` also clears `isActive`, a join on the state it produces
is rejected with the "not active" reason. -/
theorem c4_amended_join_after_deactivate (db : DB) (uid eid now now2 : Nat) (u : User)
    (hu : findUserWithId db uid = some u)
    (hs : (deactivateEvent db eid now).1 = DeactivateRes.success) :
    (joinEvent (deactivateEvent db eid now).2 uid eid now2).1 = JoinRes.notActive := by
  obtain ⟨event, he, _hd, hpost⟩ := deactivateEvent_success db eid now hs
  rw [hpost]
  have heid := findEventWithId_eid he
  have husers : (updateEventDoc db event.eid
      (fun e => { e with isActive := false, isDeactivated := true, updatedAt := now })).users
      = db.users := rfl
  have hfindu : findUserWithId (updateEventDoc db event.eid
      (fun e => { e with isActive := false, isDeactivated := true, updatedAt := now })) uid
      = some u := hu
  have hfinde : findEventWithId (updateEventDoc db event.eid
      (fun e => { e with isActive := false, isDeactivated := true, updatedAt := now })) eid
      = some { event with isActive := false, isDeactivated := true, updatedAt := now } := by
    unfold findEventWithId updateEventDoc
    have hcomm := find?_map_pred
      (fun e => if e.eid == event.eid
        then { e with isActive := false, isDeactivated := true, updatedAt := now } else e)
      (fun e : Event => e.eid == eid) db.events
      (fun e => by
        dsimp only
        by_cases hc : (e.eid == event.eid) = true
        · rw [if_pos hc]
        · rw [if_neg hc])
    rw [hcomm]
    show (findEventWithId db eid).map _ = _
    rw [he]
    dsimp only [Option.map_some']
    rw [if_pos (by simp [heid])]
  unfold joinEvent
  rw [hfindu, hfinde]
  dsimp only
  rw [if_pos rfl]

theorem c4_amended_join_after_deactivate_witness :
    (joinEvent (deactivateEvent dbPreC4 7 3).2 1 7 4).1 = JoinRes.notActive :=
  c4_amended_join_after_deactivate dbPreC4 1 7 3 4 { uid := 1, joinedEvents := [] }
    (by decide) (by decide)

/-! ## C3 -/

/-- C3: for every plaintext and every valid 256-bit hex-encoded key, the
ciphertext/iv pair produced by `encryptSymmetric` decrypts back to the
plaintext with `decryptSymmetric`.  The AES-256 core (an external
library) enters as the pair `E`/`D`, assumed length-preserving and
mutually inverse on 16-byte blocks; the CBC chaining, PKCS#7 padding and
key/iv plumbing proved here are the repository's own configuration. -/
theorem c3_encrypt_decrypt_roundtrip
    (E D : Bytes → Bytes → Bytes) (K : List Char) (key : Bytes) (iv pt : Bytes)
    (hK : hexDecode K = some key) (hKlen : key.length = 32)
    (hivlen : iv.length = 16)
    (hE : ∀ b : Bytes, b.length = 16 → (E key b).length = 16)
    (hED : ∀ b : Bytes, b.length = 16 → D key (E key b) = b) :
    decryptSymmetric D key (encryptSymmetric E iv pt key).1
      (encryptSymmetric E iv pt key).2 = some pt := by
  have hpt16 : ∀ b ∈ chunks16 (pkcs7pad pt), b.length = 16 :=
    chunks16_block_len _ (pkcs7pad_length_mod pt)
  have hcs16 : ∀ c ∈ cbcEncryptBlocks E key iv (chunks16 (pkcs7pad pt)), c.length = 16 :=
    cbcEncrypt_block_len E key hE _ iv hpt16 hivlen
  have hbsne : chunks16 (pkcs7pad pt) ≠ [] := chunks16_ne_nil _ (pkcs7pad_ne_nil pt)
  have hcsne : cbcEncryptBlocks E key iv (chunks16 (pkcs7pad pt)) ≠ [] :=
    cbcEncrypt_ne_nil E key iv _ hbsne
  show decryptSymmetric D key
    (cbcEncryptBlocks E key iv (chunks16 (pkcs7pad pt))).flatten iv = some pt
  rw [decryptSymmetric,
    if_pos ⟨flatten_blocks_mod _ hcs16, flatten_blocks_ne_nil _ hcs16 hcsne⟩,
    chunks16_flatten_blocks _ hcs16,
    cbc_roundtrip E D key hE hED _ iv hpt16 hivlen,
    chunks16_flatten]
  exact pkcs7unpad_pad pt

def keyC : Bytes := List.replicate 32 0

def ivC : Bytes := List.replicate 16 0

def hexKeyC : List Char := List.replicate 64 '0'

theorem c3_encrypt_decrypt_roundtrip_witness :
    decryptSymmetric revCipher keyC
      (encryptSymmetric revCipher ivC [104, 105] keyC).1
      (encryptSymmetric revCipher ivC [104, 105] keyC).2 = some [104, 105] :=
  c3_encrypt_decrypt_roundtrip revCipher revCipher hexKeyC keyC ivC [104, 105]
    (by decide) (by decide) (by decide)
    (fun b hb => by simpa [revCipher] using hb)
    (fun b _ => by simp [revCipher])

/-! ## C6 -/

theorem sweepOne_eid (now : Nat) (e : Event) : (sweepOne now e).eid = e.eid := by
  unfold sweepOne
  by_cases hc : e.isActive = true ∧ e.endTime < now
  · rw [if_pos hc]
  · rw [if_neg hc]

theorem findEventWithId_sweep (db : DB) (now eid : Nat) :
    findEventWithId (checkActiveEvents db now) eid
      = (findEventWithId db eid).map (sweepOne now) := by
  unfold findEventWithId checkActiveEvents
  exact find?_map_pred (sweepOne now) (fun e : Event => e.eid == eid) db.events
    (fun e => by dsimp only; rw [sweepOne_eid])

theorem sweepOne_idem (now : Nat) (e : Event) :
    sweepOne now (sweepOne now e) = sweepOne now e := by
  unfold sweepOne
  by_cases hc : e.isActive = true ∧ e.endTime < now
  · rw [if_pos hc]
    rw [if_neg]
    intro hcon
    simp at hcon
  · rw [if_neg hc, if_neg hc]

/-- C6: the sweep (`checkActiveEvents`) deactivates exactly the active
events whose `endTime` has passed, stamping `updatedAt`; it leaves every
other event untouched; running it twice equals running it once; and a
join on a swept event is rejected with the "not active" reason. -/
theorem c6_sweepExpired (db : DB) (now now2 : Nat) :
    (∀ e ∈ db.events, e.isActive = true → e.endTime < now →
      { e with isActive := false, updatedAt := now } ∈ (checkActiveEvents db now).events) ∧
    (∀ e ∈ db.events, ¬(e.isActive = true ∧ e.endTime < now) →
      e ∈ (checkActiveEvents db now).events) ∧
    checkActiveEvents (checkActiveEvents db now) now = checkActiveEvents db now ∧
    (∀ uid u, findUserWithId db uid = some u →
      ∀ e ∈ db.events, e.isActive = true → e.endTime < now →
      (db.events.map Event.eid).Nodup →
      (joinEvent (checkActiveEvents db now) uid e.eid now2).1 = JoinRes.notActive) := by
  refine ⟨?_, ?_, ?_, ?_⟩
  · intro e he ha ht
    have : sweepOne now e = { e with isActive := false, updatedAt := now } := by
      unfold sweepOne
      rw [if_pos ⟨ha, ht⟩]
    exact this ▸ List.mem_map_of_mem (sweepOne now) he
  · intro e he hn
    have : sweepOne now e = e := by
      unfold sweepOne
      rw [if_neg hn]
    exact this ▸ List.mem_map_of_mem (sweepOne now) he
  · have hev : (db.events.map (sweepOne now)).map (sweepOne now)
        = db.events.map (sweepOne now) := by
      rw [List.map_map]
      exact List.map_congr_left fun e _ => sweepOne_idem now e
    unfold checkActiveEvents
    simp only [hev]
  · intro uid u hu e he ha ht hnodup
    have hfu : findUserWithId (checkActiveEvents db now) uid = some u := hu
    have hfe : findEventWithId (checkActiveEvents db now) e.eid
        = some (sweepOne now e) := by
      rw [findEventWithId_sweep, findEventWithId_of_mem hnodup he]
      rfl
    have hsw : sweepOne now e = { e with isActive := false, updatedAt := now } := by
      unfold sweepOne
      rw [if_pos ⟨ha, ht⟩]
    rw [hsw] at hfe
    unfold joinEvent
    rw [hfu, hfe]
    dsimp only
    rw [if_pos rfl]

def evC6 : Event :=
  { eid := 9, totalSeats := 5, startTime := 0, endTime := 100,
    isActive := true, isDeactivated := false, qrCodeString := none,
    qrCodeIv := none, participants := [], updatedAt := 0 }

def dbC6 : DB :=
  { events := [evC6],
    users := [{ uid := 1, joinedEvents := [] }],
    participations := [], nextPid := 0 }

theorem c6_sweepExpired_witness :
    { evC6 with isActive := false, updatedAt := 200 }
      ∈ (checkActiveEvents dbC6 200).events ∧
    checkActiveEvents (checkActiveEvents dbC6 200) 200 = checkActiveEvents dbC6 200 ∧
    (joinEvent (checkActiveEvents dbC6 200) 1 9 201).1 = JoinRes.notActive := by
  have h := c6_sweepExpired dbC6 200 201
  exact ⟨h.1 evC6 (by decide) (by decide) (by decide),
    h.2.2.1,
    h.2.2.2 1 { uid := 1, joinedEvents := [] } (by decide) evC6
      (by decide) (by decide) (by decide) (by decide)⟩

/-! ## C7 -/

/-- Lookup after an event update: the found document is the updated one
when its id matches the update target. -/
theorem findEventWithId_update (db : DB) (eid tgt : Nat) (f : Event → Event)
    (hf : ∀ e, (f e).eid = e.eid) :
    findEventWithId (updateEventDoc db tgt f) eid
      = (findEventWithId db eid).map (fun e => if e.eid == tgt then f e else e) := by
  unfold findEventWithId updateEventDoc
  exact find?_map_pred _ (fun e : Event => e.eid == eid) db.events
    (fun e => by
      dsimp only
      by_cases hc : (e.eid == tgt) = true
      · rw [if_pos hc, hf]
      · rw [if_neg hc])

/-- What a successful `postQrcode` implies: either the code was already
stored (and nothing was written), or it was generated and stored now. -/
theorem postQrcode_success_cases (env : Env) (db : DB) (eid : Nat) (iv : Bytes)
    (now : Nat) (s : Bytes) (h : (postQrcode env db eid iv now).1 = QrRes.success s) :
    ∃ ev, findEventWithId db eid = some ev ∧ ev.isDeactivated = false ∧
      ((ev.qrCodeString = some s ∧ (postQrcode env db eid iv now).2 = db) ∨
       (ev.qrCodeString = none ∧ ∃ key, env.qrcodeEncryptionKey = some key ∧
         s = qrRender (encryptSymmetric env.cipherE iv (qrPayload ev.eid now) key).1 ∧
         (postQrcode env db eid iv now).2 = updateEventDoc db ev.eid
           (fun e =>
             { e with
               qrCodeString := some s,
               qrCodeIv :=
                 some (encryptSymmetric env.cipherE iv (qrPayload ev.eid now) key).2,
               updatedAt := now }))) := by
  unfold postQrcode at h ⊢
  cases hev : findEventWithId db eid with
  | none => rw [hev] at h; simp at h
  | some ev =>
  rw [hev] at h
  dsimp only at h ⊢
  by_cases hd : ev.isDeactivated = true
  · rw [if_pos hd] at h; simp at h
  · rw [if_neg hd] at h ⊢
    refine ⟨ev, rfl, by simpa using hd, ?_⟩
    cases hq : ev.qrCodeString with
    | some s0 =>
      rw [hq] at h
      dsimp only at h
      have hs : s0 = s := by cases h; rfl
      subst hs
      left
      exact ⟨rfl, rfl⟩
    | none =>
      rw [hq] at h
      cases hk : env.qrcodeEncryptionKey with
      | none => rw [hk] at h; dsimp only at h; simp at h
      | some key =>
        rw [hk] at h
        dsimp only at h ⊢
        have hs : qrRender (encryptSymmetric env.cipherE iv (qrPayload ev.eid now) key).1
            = s := by cases h; rfl
        right
        refine ⟨rfl, key, rfl, hs.symm, ?_⟩
        rw [← hs]

def evC7 : Event :=
  { eid := 3, totalSeats := 5, startTime := 0, endTime := 100,
    isActive := false, isDeactivated := true, qrCodeString := some [81, 82, 1, 2],
    qrCodeIv := some (List.replicate 16 0), participants := [], updatedAt := 0 }

def dbC7 : DB :=
  { events := [evC7], users := [], participations := [], nextPid := 0 }

/-- C7 counterexample: a deactivated event with a stored `qrCodeString` is
rejected with the "deactivated" error — the stored code is *not* returned
unchanged, because the handler checks `isDeactivated` before the stored
code (the spec puts the stored-code check first). -/
theorem c7_counterexample :
    evC7.qrCodeString = some [81, 82, 1, 2] ∧
    findEventWithId dbC7 3 = some evC7 ∧
    (postQrcode envC dbC7 3 ivC 5).1 = QrRes.deactivated ∧
    (postQrcode envC dbC7 3 ivC 5).1 ≠ QrRes.success [81, 82, 1, 2] := by
  decide

/-- C7 (amended): for a *non-deactivated* event with a stored
`qrCodeString`, `postQrcode` returns it unchanged without writing; and
whenever a call returns success, an immediately following call returns the
byte-identical string and leaves the store untouched, so the pair is
written at most once. -/
theorem c7_amended_qrcode_idempotent (env : Env) (db : DB) (eid : Nat)
    (iv1 iv2 : Bytes) (now1 now2 : Nat) :
    (∀ ev s, findEventWithId db eid = some ev → ev.isDeactivated = false →
      ev.qrCodeString = some s →
      postQrcode env db eid iv1 now1 = (QrRes.success s, db)) ∧
    (∀ s1, (postQrcode env db eid iv1 now1).1 = QrRes.success s1 →
      postQrcode env (postQrcode env db eid iv1 now1).2 eid iv2 now2
        = (QrRes.success s1, (postQrcode env db eid iv1 now1).2)) := by
  constructor
  · intro ev s hev hd hq
    unfold postQrcode
    rw [hev]
    dsimp only
    rw [if_neg (by simp [hd]), hq]
  · intro s1 h
    obtain ⟨ev, hev, hd, hcase⟩ := postQrcode_success_cases env db eid iv1 now1 s1 h
    rcases hcase with ⟨hq, hpost⟩ | ⟨hq, key, hk, hs, hpost⟩
    · rw [hpost]
      unfold postQrcode
      rw [hev]
      dsimp only
      rw [if_neg (by simp [hd]), hq]
    · rw [hpost]
      have heid := findEventWithId_eid hev
      have hfe : findEventWithId (updateEventDoc db ev.eid
          (fun e =>
            { e with
              qrCodeString := some s1,
              qrCodeIv :=
                some (encryptSymmetric env.cipherE iv1 (qrPayload ev.eid now1) key).2,
              updatedAt := now1 })) eid
          = some
            { ev with
              qrCodeString := some s1,
              qrCodeIv :=
                some (encryptSymmetric env.cipherE iv1 (qrPayload ev.eid now1) key).2,
              updatedAt := now1 } := by
        rw [findEventWithId_update db eid ev.eid
          (fun e =>
            { e with
              qrCodeString := some s1,
              qrCodeIv :=
                some (encryptSymmetric env.cipherE iv1 (qrPayload ev.eid now1) key).2,
              updatedAt := now1 }) (fun e => rfl), hev]
        dsimp only [Option.map_some']
        rw [if_pos (by simp)]
      unfold postQrcode
      rw [hfe]
      dsimp only
      rw [if_neg (by simp [hd])]

def evC7b : Event :=
  { eid := 3, totalSeats := 5, startTime := 0, endTime := 100,
    isActive := true, isDeactivated := false, qrCodeString := none,
    qrCodeIv := none, participants := [], updatedAt := 0 }

def dbC7b : DB :=
  { events := [evC7b], users := [], participations := [], nextPid := 0 }

theorem c7_amended_qrcode_idempotent_witness :
    postQrcode envC (postQrcode envC dbC7b 3 ivC 42).2 3 (List.replicate 16 7) 43
      = (QrRes.success (qrRender (encryptSymmetric revCipher ivC (qrPayload 3 42) keyC).1),
         (postQrcode envC dbC7b 3 ivC 42).2) :=
  (c7_amended_qrcode_idempotent envC dbC7b 3 ivC (List.replicate 16 7) 42 43).2
    (qrRender (encryptSymmetric revCipher ivC (qrPayload 3 42) keyC).1) (by decide)

/-! ## C8 -/

/-- What a successful `verifyEvent` implies, and the exact post-state it
produces: the found active participation was unconfirmed and is now
confirmed. -/
theorem verifyEvent_success_cases (env : Env) (db : DB) (uid eid : Nat) (body : Bytes)
    (now : Nat) (h : (verifyEvent env db uid eid body now).1 = VerifyRes.success) :
    ∃ user event part,
      findUserWithId db uid = some user ∧
      findEventWithId db eid = some event ∧
      event.isDeactivated = false ∧
      (populatedJoinedEvents db user).find?
        (fun p => p.event == event.eid && p.isActive) = some part ∧
      part.isConfirmed = false ∧
      (verifyEvent env db uid eid body now).2 =
        updateParticipations db [part.pid]
          (fun p => { p with isConfirmed := true, updatedAt := now }) := by
  unfold verifyEvent at h ⊢
  cases hu : findUserWithId db uid with
  | none => rw [hu] at h; simp at h
  | some user =>
  rw [hu] at h
  cases he : findEventWithId db eid with
  | none => rw [he] at h; simp at h
  | some event =>
  rw [he] at h
  dsimp only at h ⊢
  by_cases hd : event.isDeactivated = true
  · rw [if_pos hd] at h; simp at h
  · rw [if_neg hd] at h ⊢
    cases hf : (populatedJoinedEvents db user).find?
        (fun p => p.event == event.eid && p.isActive) with
    | none => rw [hf] at h; simp at h
    | some part =>
    rw [hf] at h
    dsimp only at h ⊢
    by_cases hc : part.isConfirmed = true
    · rw [if_pos hc] at h; simp at h
    · rw [if_neg hc] at h ⊢
      by_cases hb : body = []
      · rw [if_pos hb] at h; simp at h
      · rw [if_neg hb] at h ⊢
        cases hcq : checkQrcode event.qrCodeString with
        | none => rw [hcq] at h; simp at h
        | some eqs =>
        rw [hcq] at h
        dsimp only at h ⊢
        cases hk : env.qrcodeEncryptionKey with
        | none => rw [hk] at h; simp at h
        | some key =>
        rw [hk] at h
        dsimp only at h ⊢
        cases hiv : event.qrCodeIv with
        | none => rw [hiv] at h; simp at h
        | some iv =>
        rw [hiv] at h
        dsimp only at h ⊢
        cases hd1 : decryptSymmetric env.cipherD key body iv with
        | none => rw [hd1] at h; simp at h
        | some bt =>
        cases hd2 : decryptSymmetric env.cipherD key eqs iv with
        | none => rw [hd1, hd2] at h; simp at h
        | some et =>
        rw [hd1, hd2] at h
        dsimp only at h ⊢
        by_cases heq : bt = et
        · rw [if_pos heq] at h ⊢
          exact ⟨user, event, part, rfl, rfl, by simpa using hd, hf,
            by simpa using hc, rfl⟩
        · rw [if_neg heq] at h; simp at h

/-- Resolving a user's participations after a participation update: the
resolved list is the old one with the update mapped over it. -/
theorem populatedJoinedEvents_update (db : DB) (pids : List Nat)
    (f : Participation → Participation) (hpid : ∀ p, (f p).pid = p.pid) (u : User) :
    populatedJoinedEvents (updateParticipations db pids f) u
      = (populatedJoinedEvents db u).map
          (fun p => if pids.contains p.pid then f p else p) := by
  unfold populatedJoinedEvents
  refine filterMap_map_opt _ _ _ u.joinedEvents ?_
  intro pid
  unfold lookupParticipation updateParticipations
  refine find?_map_pred _ (fun p : Participation => p.pid == pid) db.participations ?_
  intro p
  dsimp only
  by_cases hc2 : pids.contains p.pid = true
  · rw [if_pos hc2, hpid]
  · rw [if_neg hc2]

/-- C8: after one successful verify for a (user, event) pair, a second
verify — with any scanned string — is rejected with the "already
confirmed" reason and leaves the store exactly as it was after the first
call. -/
theorem c8_second_verify_rejected (env : Env) (db : DB) (uid eid : Nat)
    (bc bc2 : Bytes) (now now2 : Nat)
    (h : (verifyEvent env db uid eid bc now).1 = VerifyRes.success) :
    verifyEvent env (verifyEvent env db uid eid bc now).2 uid eid bc2 now2
      = (VerifyRes.alreadyConfirmed, (verifyEvent env db uid eid bc now).2) := by
  obtain ⟨user, event, part, hu, he, hd, hf, _hc, hpost⟩ :=
    verifyEvent_success_cases env db uid eid bc now h
  rw [hpost]
  have hu1 : findUserWithId (updateParticipations db [part.pid]
      (fun p => { p with isConfirmed := true, updatedAt := now })) uid = some user := hu
  have he1 : findEventWithId (updateParticipations db [part.pid]
      (fun p => { p with isConfirmed := true, updatedAt := now })) eid = some event := he
  have hpop : populatedJoinedEvents (updateParticipations db [part.pid]
        (fun p => { p with isConfirmed := true, updatedAt := now })) user
      = (populatedJoinedEvents db user).map
          (fun p => if [part.pid].contains p.pid
            then { p with isConfirmed := true, updatedAt := now } else p) :=
    populatedJoinedEvents_update db [part.pid]
      (fun p => { p with isConfirmed := true, updatedAt := now }) (fun p => rfl) user
  have hfind1 : (populatedJoinedEvents (updateParticipations db [part.pid]
        (fun p => { p with isConfirmed := true, updatedAt := now })) user).find?
        (fun p => p.event == event.eid && p.isActive)
      = some (if [part.pid].contains part.pid
          then { part with isConfirmed := true, updatedAt := now } else part) := by
    rw [hpop,
      find?_map_pred _ (fun p : Participation => p.event == event.eid && p.isActive)
        (populatedJoinedEvents db user)
        (fun p => by
          dsimp only
          by_cases hc2 : [part.pid].contains p.pid = true
          · rw [if_pos hc2]
          · rw [if_neg hc2]),
      hf]
    rfl
  have hcontains : [part.pid].contains part.pid = true := by simp
  rw [hcontains, if_pos rfl] at hfind1
  unfold verifyEvent
  rw [hu1, he1]
  dsimp only
  rw [if_neg (by simp [hd]), hfind1]
  dsimp only
  rw [if_pos rfl]

def ecC : Bytes := (encryptSymmetric revCipher ivC (qrPayload 9 42) keyC).1

def evC8 : Event :=
  { eid := 9, totalSeats := 5, startTime := 0, endTime := 100,
    isActive := true, isDeactivated := false, qrCodeString := some (qrRender ecC),
    qrCodeIv := some ivC, participants := [0], updatedAt := 0 }

def dbC8 : DB :=
  { events := [evC8],
    users := [{ uid := 1, joinedEvents := [0] }],
    participations := [{ pid := 0, user := 1, event := 9, isActive := true,
                         isConfirmed := false, updatedAt := 0 }],
    nextPid := 1 }

theorem c8_second_verify_rejected_witness :
    verifyEvent envC (verifyEvent envC dbC8 1 9 ecC 50).2 1 9 ecC 60
      = (VerifyRes.alreadyConfirmed, (verifyEvent envC dbC8 1 9 ecC 50).2) :=
  c8_second_verify_rejected envC dbC8 1 9 ecC ecC 50 60 (by decide)

/-! ## C10 -/

theorem checkQrcode_qrRender (c : Bytes) : checkQrcode (some (qrRender c)) = some c := rfl

/-- C10: verify never consults `isActive`; an unconfirmed active
participation on a non-deactivated but inactive event is confirmed when
the scanned ciphertext decrypts to the same plaintext as the stored
one. -/
theorem c10_verify_ignores_isActive (env : Env) (db : DB) (uid eid now : Nat)
    (bc : Bytes) (user : User) (event : Event) (part : Participation)
    (key iv ec m : Bytes)
    (hu : findUserWithId db uid = some user)
    (he : findEventWithId db eid = some event)
    (hnd : event.isDeactivated = false)
    (hna : event.isActive = false)
    (hfind : (populatedJoinedEvents db user).find?
      (fun p => p.event == event.eid && p.isActive) = some part)
    (hconf : part.isConfirmed = false)
    (hbc : bc ≠ [])
    (hqr : event.qrCodeString = some (qrRender ec))
    (hkey : env.qrcodeEncryptionKey = some key)
    (hiv : event.qrCodeIv = some iv)
    (hd1 : decryptSymmetric env.cipherD key bc iv = some m)
    (hd2 : decryptSymmetric env.cipherD key ec iv = some m) :
    (verifyEvent env db uid eid bc now).1 = VerifyRes.success ∧
    ∀ q ∈ (verifyEvent env db uid eid bc now).2.participations,
      q.pid = part.pid → q.isConfirmed = true := by
  have hrun : verifyEvent env db uid eid bc now
      = (VerifyRes.success, updateParticipations db [part.pid]
          (fun p => { p with isConfirmed := true, updatedAt := now })) := by
    unfold verifyEvent
    rw [hu, he]
    dsimp only
    rw [if_neg (by simp [hnd]), hfind]
    dsimp only
    rw [if_neg (by simp [hconf]), if_neg hbc, hqr, checkQrcode_qrRender]
    dsimp only
    rw [hkey]
    dsimp only
    rw [hiv]
    dsimp only
    rw [hd1, hd2]
    dsimp only
    rw [if_pos rfl]
  constructor
  · rw [hrun]
  · rw [hrun]
    intro q hq hqpid
    rcases List.mem_map.1 hq with ⟨r, hr, rfl⟩
    have hrpid : r.pid = part.pid := by
      revert hqpid
      dsimp only
      by_cases hcr : [part.pid].contains r.pid = true
      · rw [if_pos hcr]; exact fun h => h
      · rw [if_neg hcr]; exact fun h => h
    have hcr : [part.pid].contains r.pid = true := by simp [hrpid]
    dsimp only
    rw [if_pos hcr]

def evC10 : Event :=
  { eid := 9, totalSeats := 5, startTime := 0, endTime := 100,
    isActive := false, isDeactivated := false, qrCodeString := some (qrRender ecC),
    qrCodeIv := some ivC, participants := [0], updatedAt := 0 }

def dbC10 : DB :=
  { events := [evC10],
    users := [{ uid := 1, joinedEvents := [0] }],
    participations := [{ pid := 0, user := 1, event := 9, isActive := true,
                         isConfirmed := false, updatedAt := 0 }],
    nextPid := 1 }

def pC10 : Participation :=
  { pid := 0, user := 1, event := 9, isActive := true, isConfirmed := false,
    updatedAt := 0 }

theorem c10_verify_ignores_isActive_witness :
    (verifyEvent envC dbC10 1 9 ecC 50).1 = VerifyRes.success ∧
    ∀ q ∈ (verifyEvent envC dbC10 1 9 ecC 50).2.participations,
      q.pid = pC10.pid → q.isConfirmed = true :=
  c10_verify_ignores_isActive envC dbC10 1 9 50 ecC
    { uid := 1, joinedEvents := [0] } evC10 pC10 keyC ivC ecC (qrPayload 9 42)
    (by decide) (by decide) (by decide) (by decide) (by decide) (by decide)
    (by decide) (by decide) (by decide) (by decide) (by decide) (by decide)

/-! ## C5 -/

/-- C5 counterexample: decryption of the malformed-but-nonempty scanned
string `[1]` (length not a multiple of the block size) throws; the
handlers' top-level catch answers with the raw error (`rawError`), so
`checkQrCode` does *not* return `{isValid:false}` and `verify` does *not*
reject with its "invalid code" reason. -/
theorem c5_counterexample :
    (checkQrCodeRoute envC dbC8 1 9 [1]).1 = CheckQrRes.rawError ∧
    (checkQrCodeRoute envC dbC8 1 9 [1]).1 ≠ CheckQrRes.checked false none none ∧
    (verifyEvent envC dbC8 1 9 [1] 50).1 = VerifyRes.rawError ∧
    (verifyEvent envC dbC8 1 9 [1] 50).1 ≠ VerifyRes.invalidCode := by
  decide

/-- C5 (amended): when decryption of a nonempty scanned string fails, both
`checkQrCode` and `verify` surface the caught crypto error as a 400
response with the raw exception (`rawError`) — not as `{isValid:false}`
and not as the "invalid code" rejection — while leaving the store
unchanged. -/
theorem c5_amended_decrypt_failure_surfaces (env : Env) (db : DB) (uid eid now : Nat)
    (bad : Bytes) (user : User) (event : Event) (key iv ec : Bytes)
    (hu : findUserWithId db uid = some user)
    (he : findEventWithId db eid = some event)
    (hqr : event.qrCodeString = some (qrRender ec))
    (hnd : event.isDeactivated = false)
    (hbad : bad ≠ [])
    (hkey : env.qrcodeEncryptionKey = some key)
    (hiv : event.qrCodeIv = some iv)
    (hfail : decryptSymmetric env.cipherD key bad iv = none) :
    checkQrCodeRoute env db uid eid bad = (CheckQrRes.rawError, db) ∧
    (∀ part, (populatedJoinedEvents db user).find?
        (fun p => p.event == event.eid && p.isActive) = some part →
      part.isConfirmed = false →
      verifyEvent env db uid eid bad now = (VerifyRes.rawError, db)) := by
  constructor
  · unfold checkQrCodeRoute
    rw [hu, he]
    dsimp only
    rw [hqr]
    dsimp only
    rw [if_neg (by simp [hnd]), if_neg hbad, hkey]
    dsimp only
    rw [hiv]
    dsimp only
    rw [hfail]
  · intro part hfind hconf
    unfold verifyEvent
    rw [hu, he]
    dsimp only
    rw [if_neg (by simp [hnd]), hfind]
    dsimp only
    rw [if_neg (by simp [hconf]), if_neg hbad, hqr, checkQrcode_qrRender]
    dsimp only
    rw [hkey]
    dsimp only
    rw [hiv]
    dsimp only
    cases hd2 : decryptSymmetric env.cipherD key ec iv with
    | none => rw [hfail]
    | some et => rw [hfail]

theorem c5_amended_decrypt_failure_surfaces_witness :
    checkQrCodeRoute envC dbC8 1 9 [1] = (CheckQrRes.rawError, dbC8) ∧
    verifyEvent envC dbC8 1 9 [1] 50 = (VerifyRes.rawError, dbC8) := by
  have h := c5_amended_decrypt_failure_surfaces envC dbC8 1 9 50 [1]
    { uid := 1, joinedEvents := [0] } evC8 keyC ivC ecC
    (by decide) (by decide) (by decide) (by decide) (by decide) (by decide)
    (by decide) (by decide)
  exact ⟨h.1, h.2 pC10 (by decide) (by decide)⟩

/-! ## C9 -/

/-- Detailed success shape of `leaveEvent`: the deactivated pids are
exactly those of the caller's active participations for the event, and the
event found was not deactivated. -/
theorem leaveEvent_snd2 (db : DB) (uid eid now : Nat) :
    (leaveEvent db uid eid now).2 = db ∨
    ∃ user event, findUserWithId db uid = some user ∧
      findEventWithId db eid = some event ∧
      event.isDeactivated = false ∧
      (leaveEvent db uid eid now).2 =
        updateParticipations db
          ((joinedParticipationsFor db user event.eid).map (fun p => p.pid))
          (fun p => { p with isActive := false, updatedAt := now }) := by
  unfold leaveEvent
  cases hu : findUserWithId db uid with
  | none => left; rfl
  | some user =>
  cases he : findEventWithId db eid with
  | none => left; rfl
  | some event =>
  dsimp only
  by_cases hd : event.isDeactivated = true
  · rw [if_pos hd]; left; rfl
  · rw [if_neg hd]
    by_cases hj : (joinedParticipationsFor db user event.eid).length ≤ 0
    · rw [if_pos hj]; left; rfl
    · rw [if_neg hj]
      right
      exact ⟨user, event, rfl, rfl, by simpa using hd, rfl⟩

theorem mem_joinedParticipationsFor {db : DB} {u : User} {eid : Nat} {p : Participation}
    (h : p ∈ joinedParticipationsFor db u eid) :
    p ∈ db.participations ∧ p.event = eid ∧ p.isActive = true := by
  unfold joinedParticipationsFor at h
  have h1 := List.mem_filter.1 h
  have hcond := h1.2
  have hpred := h1.1
  unfold populatedJoinedEvents at hpred
  rcases List.mem_filterMap.1 hpred with ⟨pid, _, hlk⟩
  have hmem : p ∈ db.participations := List.mem_of_find?_eq_some hlk
  simp only [Bool.and_eq_true, beq_iff_eq] at hcond
  exact ⟨hmem, hcond.1, hcond.2⟩

theorem sweepOne_isDeactivated (now : Nat) (e : Event) :
    (sweepOne now e).isDeactivated = e.isDeactivated := by
  unfold sweepOne
  by_cases hc : e.isActive = true ∧ e.endTime < now
  · rw [if_pos hc]
  · rw [if_neg hc]

/-- A deactivated event with a given id survives any event-map that
preserves ids and never resets `isDeactivated`. -/
theorem exists_deact_map (l : List Event) (g : Event → Event) (E : Nat)
    (hg : ∀ e, (g e).eid = e.eid ∧
      ((g e).isDeactivated = true ∨ (g e).isDeactivated = e.isDeactivated))
    (hex : ∃ ev' ∈ l, ev'.eid = E ∧ ev'.isDeactivated = true) :
    ∃ ev' ∈ l.map g, ev'.eid = E ∧ ev'.isDeactivated = true := by
  obtain ⟨ev', hmem, heid, hde⟩ := hex
  refine ⟨g ev', List.mem_map_of_mem g hmem, (hg ev').1.trans heid, ?_⟩
  rcases (hg ev').2 with h2 | h2
  · exact h2
  · rw [h2]; exact hde

/-- Once an event is deactivated, every handler preserves the fact that an
event with that id is deactivated. -/
theorem deact_preserved {db1 db2 : DB} (h : Step db1 db2) {E : Nat}
    (hex : ∃ ev' ∈ db1.events, ev'.eid = E ∧ ev'.isDeactivated = true) :
    ∃ ev' ∈ db2.events, ev'.eid = E ∧ ev'.isDeactivated = true := by
  cases h with
  | join uid eid now =>
    rcases joinEvent_snd db1 uid eid now with h2 | ⟨user, event, _, _, _, h2⟩ <;> rw [h2]
    · exact hex
    · refine exists_deact_map db1.events _ E ?_ hex
      intro e
      dsimp only
      by_cases hc : (e.eid == event.eid) = true
      · rw [if_pos hc]; exact ⟨rfl, Or.inr rfl⟩
      · rw [if_neg hc]; exact ⟨rfl, Or.inr rfl⟩
  | leave uid eid now =>
    rcases leaveEvent_snd db1 uid eid now with h2 | ⟨pids, h2⟩ <;> rw [h2] <;> exact hex
  | verify env uid eid body now =>
    rcases verifyEvent_snd env db1 uid eid body now with h2 | ⟨pid2, h2⟩ <;> rw [h2] <;>
      exact hex
  | deactivate eid now =>
    rcases deactivateEvent_snd db1 eid now with h2 | ⟨eid2, h2⟩ <;> rw [h2]
    · exact hex
    · refine exists_deact_map db1.events _ E ?_ hex
      intro e
      dsimp only
      by_cases hc : (e.eid == eid2) = true
      · rw [if_pos hc]; exact ⟨rfl, Or.inl rfl⟩
      · rw [if_neg hc]; exact ⟨rfl, Or.inr rfl⟩
  | sweep now =>
    refine exists_deact_map db1.events _ E ?_ hex
    intro e
    exact ⟨sweepOne_eid now e, Or.inr (sweepOne_isDeactivated now e)⟩
  | qrcode env eid iv now =>
    rcases postQrcode_snd env db1 eid iv now with h2 | ⟨eid2, qr, ivS, h2⟩ <;> rw [h2]
    · exact hex
    · refine exists_deact_map db1.events _ E ?_ hex
      intro e
      dsimp only
      by_cases hc : (e.eid == eid2) = true
      · rw [if_pos hc]; exact ⟨rfl, Or.inr rfl⟩
      · rw [if_neg hc]; exact ⟨rfl, Or.inr rfl⟩

/-- An active participation of a deactivated event stays active across
every handler: the only operation that deactivates participations is
leave, and leave is rejected on deactivated events. -/
theorem part_preserved {db1 db2 : DB} (h : Step db1 db2) (hwf : WF db1) {E pid0 : Nat}
    (hex : ∃ ev' ∈ db1.events, ev'.eid = E ∧ ev'.isDeactivated = true)
    (hq : ∃ q ∈ db1.participations, q.pid = pid0 ∧ q.event = E ∧ q.isActive = true) :
    ∃ q ∈ db2.participations, q.pid = pid0 ∧ q.event = E ∧ q.isActive = true := by
  obtain ⟨q, hqm, hqpid, hqe, hqa⟩ := hq
  cases h with
  | join uid eid now =>
    rcases joinEvent_snd db1 uid eid now with h2 | ⟨user, event, _, _, _, h2⟩ <;> rw [h2]
    · exact ⟨q, hqm, hqpid, hqe, hqa⟩
    · exact ⟨q, List.mem_append_left _ hqm, hqpid, hqe, hqa⟩
  | leave uid eid now =>
    rcases leaveEvent_snd2 db1 uid eid now with h2 | ⟨user, event, hu, he, hnd, h2⟩ <;>
      rw [h2]
    · exact ⟨q, hqm, hqpid, hqe, hqa⟩
    · by_cases hcon : ((joinedParticipationsFor db1 user event.eid).map
          (fun p => p.pid)).contains q.pid = true
      · exfalso
        rcases List.mem_map.1 (List.elem_iff.1 hcon) with ⟨r, hr, hrpid⟩
        obtain ⟨hrmem, hrev, _⟩ := mem_joinedParticipationsFor hr
        have hrq : r = q := nodup_key_eq Participation.pid hwf.2.1 hrmem hqm hrpid
        rw [hrq] at hrev
        obtain ⟨ev', hevm, heid, hde⟩ := hex
        have hevmem : event ∈ db1.events := findEventWithId_mem he
        have : event = ev' := by
          refine nodup_key_eq Event.eid hwf.2.2.1 hevmem hevm ?_
          rw [← hrev, hqe, heid]
        rw [this, hde] at hnd
        cases hnd
      · refine ⟨_, List.mem_map_of_mem
          (fun p => if ((joinedParticipationsFor db1 user event.eid).map
            (fun p => p.pid)).contains p.pid
            then { p with isActive := false, updatedAt := now } else p) hqm, ?_⟩
        dsimp only
        rw [if_neg hcon]
        exact ⟨hqpid, hqe, hqa⟩
  | verify env uid eid body now =>
    rcases verifyEvent_snd env db1 uid eid body now with h2 | ⟨pid2, h2⟩ <;> rw [h2]
    · exact ⟨q, hqm, hqpid, hqe, hqa⟩
    · refine ⟨_, List.mem_map_of_mem
        (fun p => if [pid2].contains p.pid
          then { p with isConfirmed := true, updatedAt := now } else p) hqm, ?_⟩
      dsimp only
      by_cases hc : [pid2].contains q.pid = true
      · rw [if_pos hc]; exact ⟨hqpid, hqe, hqa⟩
      · rw [if_neg hc]; exact ⟨hqpid, hqe, hqa⟩
  | deactivate eid now =>
    rcases deactivateEvent_snd db1 eid now with h2 | ⟨eid2, h2⟩ <;> rw [h2] <;>
      exact ⟨q, hqm, hqpid, hqe, hqa⟩
  | sweep now =>
    exact ⟨q, hqm, hqpid, hqe, hqa⟩
  | qrcode env eid iv now =>
    rcases postQrcode_snd env db1 eid iv now with h2 | ⟨eid2, qr, ivS, h2⟩ <;> rw [h2] <;>
      exact ⟨q, hqm, hqpid, hqe, hqa⟩

/-- C9: on a deactivated event, leave is rejected with the deactivated
error before the joined-participation check, even for users who hold an
active participation; consequently such a participation's `isActive`
remains true in every state reachable from then on. -/
theorem c9_deactivated_event_blocks_leave (db : DB) (hwf : WF db)
    (ev : Event) (hev : ev ∈ db.events) (hde : ev.isDeactivated = true)
    (p : Participation) (hp : p ∈ db.participations) (hpe : p.event = ev.eid)
    (hact : p.isActive = true) :
    (∀ uid u now, findUserWithId db uid = some u →
      leaveEvent db uid ev.eid now = (LeaveRes.deactivated, db)) ∧
    (∀ db', Reachable db db' →
      ∃ q ∈ db'.participations, q.pid = p.pid ∧ q.event = ev.eid ∧ q.isActive = true) := by
  constructor
  · intro uid u now hu
    unfold leaveEvent
    rw [hu, findEventWithId_of_mem hwf.2.2.1 hev]
    dsimp only
    rw [if_pos hde]
  · intro db' hr
    suffices h : WF db' ∧
        (∃ ev' ∈ db'.events, ev'.eid = ev.eid ∧ ev'.isDeactivated = true) ∧
        (∃ q ∈ db'.participations, q.pid = p.pid ∧ q.event = ev.eid ∧ q.isActive = true) by
      exact h.2.2
    induction hr with
    | refl => exact ⟨hwf, ⟨ev, hev, rfl, hde⟩, ⟨p, hp, rfl, hpe, hact⟩⟩
    | tail _hab hbc ih =>
      exact ⟨WF_step hbc ih.1, deact_preserved hbc ih.2.1,
        part_preserved hbc ih.1 ih.2.1 ih.2.2⟩

def evC9 : Event :=
  { eid := 7, totalSeats := 4, startTime := 0, endTime := 100,
    isActive := false, isDeactivated := true, qrCodeString := none,
    qrCodeIv := none, participants := [0], updatedAt := 0 }

def pC9 : Participation :=
  { pid := 0, user := 1, event := 7, isActive := true, isConfirmed := false,
    updatedAt := 0 }

def dbC9 : DB :=
  { events := [evC9],
    users := [{ uid := 1, joinedEvents := [0] }],
    participations := [pC9], nextPid := 1 }

theorem c9_deactivated_event_blocks_leave_witness :
    leaveEvent dbC9 1 7 5 = (LeaveRes.deactivated, dbC9) ∧
    ∃ q ∈ dbC9.participations, q.pid = pC9.pid ∧ q.event = evC9.eid ∧
      q.isActive = true := by
  have h := c9_deactivated_event_blocks_leave dbC9 (by unfold WF; decide) evC9
    (by decide) (by decide) pC9 (by decide) (by decide) (by decide)
  exact ⟨h.1 1 { uid := 1, joinedEvents := [0] } 5 (by decide),
    h.2 dbC9 Relation.ReflTransGen.refl⟩

end KU
